import Mathlib

set_option linter.unusedVariables false

/-! Shallow embedding of the back-end server of the Live_Quiz_App repository
    (file server.js).  The in-memory stores `quizzes` and `rooms` become
    insertion-ordered association lists, mirroring the key-insertion-order
    semantics of plain JavaScript objects with string keys.  Armed
    `setTimeout` question timers in the runtime are modelled by the list
    `pendingTimers` of (handle, roomCode) pairs together with a fresh-handle
    counter; `clearTimeout` removes a handle from that list.  A handler that
    would throw a TypeError (reading a property of `undefined`) is modelled
    by returning `crashed = true` with the state as mutated up to the throw
    point.  Socket emissions are collected in an output list. -/

/-- A question of the submitted quiz data: prompt, choices, correctAnswer,
    timeLimit (seconds). -/
structure Question where
  prompt : String
  choices : List String
  correctAnswer : String
  timeLimit : Nat
deriving DecidableEq

/-- Quiz data as stored in the quizzes store. -/
structure Quiz where
  title : String
  questions : List Question
deriving DecidableEq

/-- One element of the answers array of a leaderboard entry:
    { question, answer, correct }. -/
structure AnswerRecord where
  question : Int
  answer : String
  correct : Bool
deriving DecidableEq

/-- A leaderboard entry { name, score, answers }. -/
structure LBEntry where
  name : String
  score : Nat
  answers : List AnswerRecord
deriving DecidableEq

/-- A roster element { id, name, score } pushed on join. -/
structure Player where
  id : String
  name : String
  score : Nat
deriving DecidableEq

/-- A room: { quizId, title, players, currentQuestion, leaderboard, hostId }
    plus the timer field assigned by startQuestionTimer. -/
structure Room where
  quizId : String
  title : String
  players : List Player
  currentQuestion : Int
  leaderboard : List (String × LBEntry)
  hostId : String
  timer : Option Nat
deriving DecidableEq

/-- The whole mutable server state: the two stores plus the set of armed
    runtime timers and a counter supplying fresh timer handles. -/
structure ServerState where
  quizzes : List (String × Quiz)
  rooms : List (String × Room)
  pendingTimers : List (Nat × String)
  nextTimerId : Nat
deriving DecidableEq

/-- Destination of an emission: a whole socket.io room, or one socket id. -/
inductive Target where
  | room (code : String)
  | sock (id : String)
deriving DecidableEq

/-- The outbound socket.io events of server.js with their payloads. -/
inductive Event where
  | quizCreated (roomCode quizId : String)
  | newQuestion (q : Option Question)
  | questionTimeout (correctAnswer : String) (results : List (String × LBEntry))
  | quizFinished (ranking : List LBEntry)
  | joinError (msg : String)
  | joinedRoom (roomCode quizTitle : String) (players : List Player)
  | playerJoined (players : List Player) (quizTitle : String)
  | updateLeaderboard (ranking : List LBEntry)
  | scoreUpdate (score : Nat)
  | hostDisconnected
deriving DecidableEq

/-- One emitted event together with its destination. -/
structure Emission where
  target : Target
  event : Event
deriving DecidableEq

/-- Result of running a handler: the state afterwards, the emissions in
    order, and whether the handler threw before finishing. -/
structure Outcome where
  st : ServerState
  out : List Emission
  crashed : Bool
deriving DecidableEq

/-- Property read on a JavaScript object: first binding of the key. -/
def lookupKey {β : Type} (k : String) : List (String × β) → Option β
  | [] => none
  | (k1, v) :: rest => if k1 = k then some v else lookupKey k rest

/-- Property write on a JavaScript object: replace the binding in place if
    the key exists, else append a new binding. -/
def setKey {β : Type} (k : String) (v : β) : List (String × β) → List (String × β)
  | [] => [(k, v)]
  | (k1, v1) :: rest => if k1 = k then (k, v) :: rest else (k1, v1) :: setKey k v rest

/-- The JavaScript delete operator: remove the binding of the key. -/
def delKey {β : Type} (k : String) : List (String × β) → List (String × β)
  | [] => []
  | (k1, v1) :: rest => if k1 = k then rest else (k1, v1) :: delKey k rest

/-- JavaScript array indexing with a possibly negative index:
    out-of-range reads give undefined, modelled as none. -/
def jsIndex (qs : List Question) (i : Int) : Option Question :=
  if i < 0 then none else qs[i.toNat]?

/-- Stable insertion of an entry into a list already sorted by score
    descending: the entry goes after every strictly higher score and before
    the first entry whose score is not higher. -/
def insertDesc (x : LBEntry) : List LBEntry → List LBEntry
  | [] => [x]
  | y :: ys => if x.score < y.score then y :: insertDesc x ys else x :: y :: ys

/-- Embedding of Object.values(room.leaderboard).sort((a, b) => b.score - a.score).
    ECMAScript sort is stable and the comparator is a consistent total
    preorder on scores, so the result is the unique stable reordering by
    score descending; a stable insertion sort computes exactly that. -/
def sortLB : List LBEntry → List LBEntry
  | [] => []
  | x :: xs => insertDesc x (sortLB xs)

/-- The effect of clearTimeout(room.timer) on the set of armed runtime
    timers; clearing an absent or already fired handle is a no-op. -/
def clearPending (timer : Option Nat) (pending : List (Nat × String)) : List (Nat × String) :=
  match timer with
  | some t => pending.filter (fun p => p.1 != t)
  | none => pending

/-- The armed runtime timers belonging to one room. -/
def armedFor (st : ServerState) (code : String) : List (Nat × String) :=
  st.pendingTimers.filter (fun p => p.2 == code)

/-- What armedFor should be when the timer field holds the given handle. -/
def timerSlot (code : String) : Option Nat → List (Nat × String)
  | some t => [(t, code)]
  | none => []

/-- startQuestionTimer(roomCode): look the room up, clear any existing
    timer, then read quizzes[quizId].questions[currentQuestion].timeLimit
    (a TypeError if the quiz or the question is undefined — the clear has
    already happened at that point) and arm a fresh timer, storing its
    handle in room.timer. -/
def startQuestionTimer (st : ServerState) (code : String) : ServerState × Bool :=
  match lookupKey code st.rooms with
  | none => (st, false)
  | some room =>
    let cleared := clearPending room.timer st.pendingTimers
    match lookupKey room.quizId st.quizzes with
    | none => ({ st with pendingTimers := cleared }, true)
    | some quiz =>
      match jsIndex quiz.questions room.currentQuestion with
      | none => ({ st with pendingTimers := cleared }, true)
      | some _q =>
        ({ st with
            rooms := setKey code { room with timer := some st.nextTimerId } st.rooms,
            pendingTimers := cleared ++ [(st.nextTimerId, code)],
            nextTimerId := st.nextTimerId + 1 }, false)

/-- nextQuestion(roomCode): missing room is a silent return; otherwise
    increment room.currentQuestion unconditionally, then read
    quizzes[quizId] (a TypeError on .questions if undefined).  If the new
    index is below the question count, emit newQuestion with that question
    and arm a timer via startQuestionTimer; otherwise emit quizFinished
    with the leaderboard values sorted by score descending. -/
def nextQuestion (st : ServerState) (code : String) : Outcome :=
  match lookupKey code st.rooms with
  | none => ⟨st, [], false⟩
  | some room =>
    let idx := room.currentQuestion + 1
    let st1 : ServerState :=
      { st with rooms := setKey code { room with currentQuestion := idx } st.rooms }
    match lookupKey room.quizId st.quizzes with
    | none => ⟨st1, [], true⟩
    | some quiz =>
      if idx < (quiz.questions.length : Int) then
        let r2 := startQuestionTimer st1 code
        ⟨r2.1, [⟨Target.room code, Event.newQuestion (jsIndex quiz.questions idx)⟩], r2.2⟩
      else
        ⟨st1, [⟨Target.room code, Event.quizFinished (sortLB (room.leaderboard.map Prod.snd))⟩], false⟩

/-- Iterating the nextQuestion handler, collecting all emissions. -/
def nextQuestionIter (st : ServerState) (code : String) : Nat → ServerState × List Emission
  | 0 => (st, [])
  | k + 1 =>
    let r := nextQuestion st code
    let rest := nextQuestionIter r.st code k
    (rest.1, r.out ++ rest.2)

/-- startQuiz(roomCode): missing room is a silent return; otherwise set
    room.currentQuestion to 0 unconditionally, read quizzes[quizId] (a
    TypeError on .questions[0] if undefined), emit newQuestion with
    questions[0], and arm the timer via startQuestionTimer. -/
def startQuiz (st : ServerState) (code : String) : Outcome :=
  match lookupKey code st.rooms with
  | none => ⟨st, [], false⟩
  | some room =>
    let st1 : ServerState :=
      { st with rooms := setKey code { room with currentQuestion := 0 } st.rooms }
    match lookupKey room.quizId st.quizzes with
    | none => ⟨st1, [], true⟩
    | some quiz =>
      let r2 := startQuestionTimer st1 code
      ⟨r2.1, [⟨Target.room code, Event.newQuestion (jsIndex quiz.questions 0)⟩], r2.2⟩

/-- Embedding of String.prototype.toUpperCase as the per-character simple
    uppercase mapping; it agrees with the JavaScript function on the ASCII
    room codes this server generates (digits and Latin letters). -/
def jsToUpperCase (s : String) : String := String.mk (s.data.map Char.toUpper)

/-- joinQuiz({ roomCode, name }) from socket pid: normalize the code to
    uppercase, reply joinError if no room is stored under the normalized
    code; otherwise push { id, name, score: 0 } on players, create the
    zero-score leaderboard entry, reply joinedRoom to the joiner and
    broadcast playerJoined to the room. -/
def joinQuiz (st : ServerState) (code name pid : String) : Outcome :=
  match lookupKey (jsToUpperCase code) st.rooms with
  | none => ⟨st, [⟨Target.sock pid, Event.joinError "Room not found. Please check the code."⟩], false⟩
  | some room =>
    let players1 := room.players ++ [⟨pid, name, 0⟩]
    let lb1 := setKey pid ⟨name, 0, []⟩ room.leaderboard
    let room1 : Room := { room with players := players1, leaderboard := lb1 }
    ⟨{ st with rooms := setKey (jsToUpperCase code) room1 st.rooms },
     [⟨Target.sock pid, Event.joinedRoom (jsToUpperCase code) room1.title players1⟩,
      ⟨Target.room (jsToUpperCase code), Event.playerJoined players1 room1.title⟩], false⟩

/-- The answers array of the leaderboard entry of pid, with the optional
    chaining fallback room.leaderboard[pid]?.answers || []. -/
def answersOf (pid : String) (lb : List (String × LBEntry)) : List AnswerRecord :=
  match lookupKey pid lb with
  | some e => e.answers
  | none => []

/-- Embedding of answers.some(a => a.question === idx). -/
def hasRecordAt (idx : Int) : List AnswerRecord → Bool
  | [] => false
  | a :: rest => if a.question = idx then true else hasRecordAt idx rest

/-- The duplicate-answer guard of the submitAnswer handler. -/
def hasAnsweredCurrent (room : Room) (pid : String) : Bool :=
  hasRecordAt room.currentQuestion (answersOf pid room.leaderboard)

/-- The guarded mutation of the submitAnswer handler: if the leaderboard
    entry of pid exists, append the answer record and add 10 to the score
    when correct; otherwise leave the room untouched. -/
def applyAnswer (room : Room) (pid answer : String) (isCorrect : Bool) : Room :=
  match lookupKey pid room.leaderboard with
  | none => room
  | some entry =>
    let entry1 : LBEntry := { entry with answers := entry.answers ++ [⟨room.currentQuestion, answer, isCorrect⟩], score := entry.score + (if isCorrect then 10 else 0) }
    { room with leaderboard := setKey pid entry1 room.leaderboard }

/-- room.leaderboard[pid]?.score || 0. -/
def scoreOf (pid : String) (lb : List (String × LBEntry)) : Nat :=
  match lookupKey pid lb with
  | some e => e.score
  | none => 0

/-- submitAnswer({ roomCode, answer }) from socket pid: look the room up
    with the code exactly as sent (no uppercase normalization); silent
    return if absent or if pid already has a record for the current index;
    otherwise read quizzes[room.quizId].questions[room.currentQuestion]
    (a TypeError if the quiz or the question is undefined, before any
    mutation), compare the answer for strict equality with correctAnswer,
    apply the guarded mutation, and emit the sorted leaderboard to the
    host socket (when hostId is truthy) plus the submitting socket's own
    score to the submitter. -/
def submitAnswer (st : ServerState) (code pid answer : String) : Outcome :=
  match lookupKey code st.rooms with
  | none => ⟨st, [], false⟩
  | some room =>
    if hasAnsweredCurrent room pid then ⟨st, [], false⟩
    else
      match lookupKey room.quizId st.quizzes with
      | none => ⟨st, [], true⟩
      | some quiz =>
        match jsIndex quiz.questions room.currentQuestion with
        | none => ⟨st, [], true⟩
        | some q =>
          let room1 := applyAnswer room pid answer (answer == q.correctAnswer)
          ⟨{ st with rooms := setKey code room1 st.rooms },
           (if room.hostId = "" then [] else
             [⟨Target.sock room.hostId, Event.updateLeaderboard (sortLB (room1.leaderboard.map Prod.snd))⟩])
           ++ [⟨Target.sock pid, Event.scoreUpdate (scoreOf pid room1.leaderboard)⟩], false⟩

/-- Running a sequence of submitAnswer calls from the same socket with the
    same room code, threading the state. -/
def submitSeq (st : ServerState) (code pid : String) : List String → ServerState
  | [] => st
  | a :: rest => submitSeq (submitAnswer st code pid a).st code pid rest

/-- Embedding of players.findIndex(p => p.id === pid). -/
def findPlayerIdx (pid : String) : List Player → Option Nat
  | [] => none
  | p :: rest => if p.id = pid then some 0 else (findPlayerIdx pid rest).map (fun i => i + 1)

/-- The disconnect handler body: scan the rooms in key insertion order;
    on the first room whose hostId matches, clear the timer, delete the
    room and its quiz and emit hostDisconnected, then stop; else on the
    first room whose roster contains the socket, splice that roster entry
    out, delete the leaderboard entry, emit the updated roster, then stop. -/
def disconnectLoop (st : ServerState) (pid : String) : List (String × Room) → ServerState × List Emission
  | [] => (st, [])
  | (code, room) :: rest =>
    if room.hostId = pid then
      ({ st with rooms := delKey code st.rooms,
                 quizzes := delKey room.quizId st.quizzes,
                 pendingTimers := clearPending room.timer st.pendingTimers },
       [⟨Target.room code, Event.hostDisconnected⟩])
    else
      match findPlayerIdx pid room.players with
      | some i =>
        let room1 : Room := { room with players := room.players.eraseIdx i, leaderboard := delKey pid room.leaderboard }
        ({ st with rooms := setKey code room1 st.rooms },
         [⟨Target.room code, Event.playerJoined (room.players.eraseIdx i) room.title⟩])
      | none => disconnectLoop st pid rest

/-- The disconnect handler: scan all live rooms. -/
def disconnect (st : ServerState) (pid : String) : ServerState × List Emission :=
  disconnectLoop st pid st.rooms

theorem lookupKey_setKey_self {β : Type} (k : String) (v : β) (l : List (String × β)) :
    lookupKey k (setKey k v l) = some v := by
  induction l with
  | nil => simp [setKey, lookupKey]
  | cons h t ih =>
    obtain ⟨k1, v1⟩ := h
    by_cases hk : k1 = k
    · simp [setKey, hk, lookupKey]
    · simp [setKey, hk, lookupKey, ih]

theorem lookupKey_setKey_ne {β : Type} (k k' : String) (v : β) (l : List (String × β))
    (h : k' ≠ k) : lookupKey k' (setKey k v l) = lookupKey k' l := by
  have h2 : ¬ (k = k') := fun e => h e.symm
  induction l with
  | nil => simp [setKey, lookupKey, h2]
  | cons hd t ih =>
    obtain ⟨k1, v1⟩ := hd
    by_cases hk : k1 = k
    · subst hk
      simp [setKey, lookupKey, h2]
    · by_cases hk' : k1 = k'
      · simp [setKey, hk, lookupKey, hk', h]
      · simp [setKey, hk, lookupKey, hk', ih]

theorem setKey_eq_of_lookup {β : Type} (k : String) (v : β) (l : List (String × β))
    (h : lookupKey k l = some v) : setKey k v l = l := by
  induction l with
  | nil => simp [lookupKey] at h
  | cons hd t ih =>
    obtain ⟨k1, v1⟩ := hd
    by_cases hk : k1 = k
    · subst hk
      simp [lookupKey] at h
      simp [setKey, h]
    · simp [lookupKey, hk] at h
      simp [setKey, hk, ih h]

theorem setKey_setKey {β : Type} (k : String) (v v' : β) (l : List (String × β)) :
    setKey k v' (setKey k v l) = setKey k v' l := by
  induction l with
  | nil => simp [setKey]
  | cons hd t ih =>
    obtain ⟨k1, v1⟩ := hd
    by_cases hk : k1 = k
    · simp [setKey, hk]
    · simp [setKey, hk, ih]

theorem lookupKey_delKey_ne {β : Type} (k k' : String) (l : List (String × β))
    (h : k' ≠ k) : lookupKey k' (delKey k l) = lookupKey k' l := by
  induction l with
  | nil => simp [delKey]
  | cons hd t ih =>
    obtain ⟨k1, v1⟩ := hd
    by_cases hk : k1 = k
    · subst hk
      have h2 : ¬ (k1 = k') := fun e => h e.symm
      simp [delKey, lookupKey, h2]
    · by_cases hk' : k1 = k'
      · simp [delKey, hk, lookupKey, hk', h]
      · simp [delKey, hk, lookupKey, hk', ih]

theorem lookupKey_eq_none_of_not_mem {β : Type} (k : String) (l : List (String × β))
    (h : k ∉ l.map Prod.fst) : lookupKey k l = none := by
  induction l with
  | nil => simp [lookupKey]
  | cons hd t ih =>
    obtain ⟨k1, v1⟩ := hd
    simp only [List.map_cons, List.mem_cons] at h
    push_neg at h
    have hk : ¬ (k1 = k) := fun e => h.1 e.symm
    simp [lookupKey, hk, ih h.2]

theorem lookupKey_delKey_self {β : Type} (k : String) (l : List (String × β))
    (hnd : (l.map Prod.fst).Nodup) : lookupKey k (delKey k l) = none := by
  induction l with
  | nil => simp [delKey, lookupKey]
  | cons hd t ih =>
    obtain ⟨k1, v1⟩ := hd
    simp only [List.map_cons, List.nodup_cons] at hnd
    by_cases hk : k1 = k
    · subst hk
      simp only [delKey, if_pos rfl]
      exact lookupKey_eq_none_of_not_mem k1 t hnd.1
    · simp [delKey, hk, lookupKey, ih hnd.2]

theorem mem_insertDesc (z x : LBEntry) (l : List LBEntry) :
    z ∈ insertDesc x l ↔ z = x ∨ z ∈ l := by
  induction l with
  | nil => simp [insertDesc]
  | cons y ys ih =>
    by_cases hc : x.score < y.score
    · simp only [insertDesc, if_pos hc, List.mem_cons, ih]
      tauto
    · simp only [insertDesc, if_neg hc, List.mem_cons]

theorem insertDesc_pairwise (x : LBEntry) (l : List LBEntry)
    (h : List.Pairwise (fun a b => b.score ≤ a.score) l) :
    List.Pairwise (fun a b => b.score ≤ a.score) (insertDesc x l) := by
  induction l with
  | nil => simp [insertDesc]
  | cons y ys ih =>
    rw [List.pairwise_cons] at h
    by_cases hc : x.score < y.score
    · rw [insertDesc, if_pos hc, List.pairwise_cons]
      constructor
      · intro z hz
        rcases (mem_insertDesc z x ys).mp hz with hzx | hzy
        · subst hzx
          exact Nat.le_of_lt hc
        · exact h.1 z hzy
      · exact ih h.2
    · rw [insertDesc, if_neg hc, List.pairwise_cons]
      constructor
      · intro z hz
        rcases List.mem_cons.mp hz with hzy | hzy
        · subst hzy
          exact Nat.le_of_not_lt hc
        · exact Nat.le_trans (h.1 z hzy) (Nat.le_of_not_lt hc)
      · exact List.pairwise_cons.mpr h

theorem sortLB_pairwise (l : List LBEntry) :
    List.Pairwise (fun a b => b.score ≤ a.score) (sortLB l) := by
  induction l with
  | nil => simp [sortLB]
  | cons x xs ih => exact insertDesc_pairwise x (sortLB xs) ih

theorem insertDesc_filter_eq (x : LBEntry) (s : Nat) (l : List LBEntry) (hx : x.score = s) :
    (insertDesc x l).filter (fun e => e.score == s) =
      x :: l.filter (fun e => e.score == s) := by
  induction l with
  | nil => simp [insertDesc, List.filter, hx]
  | cons y ys ih =>
    by_cases hc : x.score < y.score
    · have hy : ¬ (y.score == s) = true := by
        simp only [beq_iff_eq]
        omega
      rw [insertDesc, if_pos hc, List.filter_cons, if_neg hy, ih, List.filter_cons, if_neg hy]
    · rw [insertDesc, if_neg hc, List.filter_cons, if_pos (by simp [hx])]

theorem insertDesc_filter_ne (x : LBEntry) (s : Nat) (l : List LBEntry) (hx : x.score ≠ s) :
    (insertDesc x l).filter (fun e => e.score == s) =
      l.filter (fun e => e.score == s) := by
  have hxb : ¬ (x.score == s) = true := by simp [hx]
  induction l with
  | nil => simp [insertDesc, List.filter, hxb]
  | cons y ys ih =>
    by_cases hc : x.score < y.score
    · rw [insertDesc, if_pos hc, List.filter_cons, List.filter_cons]
      by_cases hy : (y.score == s) = true
      · rw [if_pos hy, if_pos hy, ih]
      · rw [if_neg hy, if_neg hy, ih]
    · rw [insertDesc, if_neg hc, List.filter_cons, if_neg hxb]

theorem sortLB_filter_score (l : List LBEntry) (s : Nat) :
    (sortLB l).filter (fun e => e.score == s) = l.filter (fun e => e.score == s) := by
  induction l with
  | nil => rfl
  | cons x xs ih =>
    rw [sortLB, List.filter_cons]
    by_cases hx : x.score = s
    · rw [insertDesc_filter_eq x s (sortLB xs) hx, ih, if_pos (by simp [hx])]
    · rw [insertDesc_filter_ne x s (sortLB xs) hx, ih, if_neg (by simp [hx])]

theorem insertDesc_perm (x : LBEntry) (l : List LBEntry) :
    List.Perm (insertDesc x l) (x :: l) := by
  induction l with
  | nil => simp [insertDesc]
  | cons y ys ih =>
    by_cases hc : x.score < y.score
    · rw [insertDesc, if_pos hc]
      exact List.Perm.trans (List.Perm.cons y ih) (List.Perm.swap x y ys)
    · rw [insertDesc, if_neg hc]

theorem sortLB_perm (l : List LBEntry) : List.Perm (sortLB l) l := by
  induction l with
  | nil => simp [sortLB]
  | cons x xs ih => exact List.Perm.trans (insertDesc_perm x (sortLB xs)) (List.Perm.cons x ih)

theorem hasRecordAt_append (idx : Int) (l l2 : List AnswerRecord) :
    hasRecordAt idx (l ++ l2) = (hasRecordAt idx l || hasRecordAt idx l2) := by
  induction l with
  | nil => simp [hasRecordAt]
  | cons a rest ih =>
    by_cases ha : a.question = idx
    · simp [hasRecordAt, ha]
    · simp [hasRecordAt, ha, ih]

theorem jsIndex_eq_none_of_le (qs : List Question) (i : Int)
    (h : (qs.length : Int) ≤ i) : jsIndex qs i = none := by
  rw [jsIndex, if_neg (by omega)]
  apply List.getElem?_eq_none
  omega

theorem jsIndex_eq_some (qs : List Question) (i : Int) (h0 : 0 ≤ i)
    (h1 : i < (qs.length : Int)) : ∃ q, jsIndex qs i = some q := by
  rw [jsIndex, if_neg (by omega)]
  have hlt : i.toNat < qs.length := by omega
  exact ⟨qs[i.toNat], List.getElem?_eq_some.mpr ⟨hlt, rfl⟩⟩

theorem applyAnswer_entry (room : Room) (pid answer : String) (c : Bool) (entry : LBEntry)
    (hentry : lookupKey pid room.leaderboard = some entry) :
    applyAnswer room pid answer c =
      { room with leaderboard := setKey pid { entry with answers := entry.answers ++ [⟨room.currentQuestion, answer, c⟩], score := entry.score + (if c then 10 else 0) } room.leaderboard } := by
  unfold applyAnswer
  rw [hentry]

theorem applyAnswer_none (room : Room) (pid answer : String) (c : Bool)
    (hentry : lookupKey pid room.leaderboard = none) :
    applyAnswer room pid answer c = room := by
  unfold applyAnswer
  rw [hentry]

theorem submit_no_room (st : ServerState) (code pid answer : String)
    (hroom : lookupKey code st.rooms = none) :
    submitAnswer st code pid answer = ⟨st, [], false⟩ := by
  unfold submitAnswer
  rw [hroom]

theorem submit_duplicate_noop (st : ServerState) (code pid answer : String) (room : Room)
    (hroom : lookupKey code st.rooms = some room)
    (hdup : hasAnsweredCurrent room pid = true) :
    submitAnswer st code pid answer = ⟨st, [], false⟩ := by
  unfold submitAnswer
  rw [hroom]
  simp [hdup]

theorem submit_crash_no_quiz (st : ServerState) (code pid answer : String) (room : Room)
    (hroom : lookupKey code st.rooms = some room)
    (hdup : hasAnsweredCurrent room pid = false)
    (hquiz : lookupKey room.quizId st.quizzes = none) :
    submitAnswer st code pid answer = ⟨st, [], true⟩ := by
  unfold submitAnswer
  rw [hroom]
  simp [hdup, hquiz]

theorem submit_crash_no_question (st : ServerState) (code pid answer : String) (room : Room) (quiz : Quiz)
    (hroom : lookupKey code st.rooms = some room)
    (hdup : hasAnsweredCurrent room pid = false)
    (hquiz : lookupKey room.quizId st.quizzes = some quiz)
    (hq : jsIndex quiz.questions room.currentQuestion = none) :
    submitAnswer st code pid answer = ⟨st, [], true⟩ := by
  unfold submitAnswer
  rw [hroom]
  simp [hdup, hquiz, hq]

theorem submit_first_eq (st : ServerState) (code pid answer : String) (room : Room) (quiz : Quiz) (q : Question)
    (hroom : lookupKey code st.rooms = some room)
    (hdup : hasAnsweredCurrent room pid = false)
    (hquiz : lookupKey room.quizId st.quizzes = some quiz)
    (hq : jsIndex quiz.questions room.currentQuestion = some q) :
    submitAnswer st code pid answer =
      ⟨{ st with rooms := setKey code (applyAnswer room pid answer (answer == q.correctAnswer)) st.rooms },
       (if room.hostId = "" then [] else [⟨Target.sock room.hostId, Event.updateLeaderboard (sortLB ((applyAnswer room pid answer (answer == q.correctAnswer)).leaderboard.map Prod.snd))⟩]) ++ [⟨Target.sock pid, Event.scoreUpdate (scoreOf pid (applyAnswer room pid answer (answer == q.correctAnswer)).leaderboard)⟩], false⟩ := by
  unfold submitAnswer
  rw [hroom]
  simp [hdup, hquiz, hq]

theorem submitSeq_noop (st : ServerState) (code pid : String) (room : Room)
    (hroom : lookupKey code st.rooms = some room)
    (hdup : hasAnsweredCurrent room pid = true) :
    ∀ rest : List String, submitSeq st code pid rest = st := by
  intro rest
  induction rest with
  | nil => rfl
  | cons a t ih =>
    rw [submitSeq, submit_duplicate_noop st code pid a room hroom hdup]
    exact ih

theorem startQuestionTimer_arm (st : ServerState) (code : String) (room : Room) (quiz : Quiz) (q : Question)
    (hroom : lookupKey code st.rooms = some room)
    (hquiz : lookupKey room.quizId st.quizzes = some quiz)
    (hq : jsIndex quiz.questions room.currentQuestion = some q) :
    startQuestionTimer st code =
      ({ st with rooms := setKey code { room with timer := some st.nextTimerId } st.rooms, pendingTimers := clearPending room.timer st.pendingTimers ++ [(st.nextTimerId, code)], nextTimerId := st.nextTimerId + 1 }, false) := by
  unfold startQuestionTimer
  rw [hroom]
  simp [hquiz, hq]

theorem nextQuestion_finished_eq (st : ServerState) (code : String) (room : Room) (quiz : Quiz)
    (hroom : lookupKey code st.rooms = some room)
    (hquiz : lookupKey room.quizId st.quizzes = some quiz)
    (hfin : (quiz.questions.length : Int) ≤ room.currentQuestion + 1) :
    nextQuestion st code =
      ⟨{ st with rooms := setKey code { room with currentQuestion := room.currentQuestion + 1 } st.rooms },
       [⟨Target.room code, Event.quizFinished (sortLB (room.leaderboard.map Prod.snd))⟩], false⟩ := by
  have hlt : ¬ (room.currentQuestion + 1 < (quiz.questions.length : Int)) := by omega
  unfold nextQuestion
  rw [hroom]
  simp [hquiz, hlt]

theorem nextQuestion_inrange_eq (st : ServerState) (code : String) (room : Room) (quiz : Quiz)
    (hroom : lookupKey code st.rooms = some room)
    (hquiz : lookupKey room.quizId st.quizzes = some quiz)
    (hin : room.currentQuestion + 1 < (quiz.questions.length : Int)) :
    nextQuestion st code =
      ⟨(startQuestionTimer { st with rooms := setKey code { room with currentQuestion := room.currentQuestion + 1 } st.rooms } code).1,
       [⟨Target.room code, Event.newQuestion (jsIndex quiz.questions (room.currentQuestion + 1))⟩],
       (startQuestionTimer { st with rooms := setKey code { room with currentQuestion := room.currentQuestion + 1 } st.rooms } code).2⟩ := by
  unfold nextQuestion
  rw [hroom]
  simp [hquiz, hin]

theorem startQuiz_eq (st : ServerState) (code : String) (room : Room) (quiz : Quiz)
    (hroom : lookupKey code st.rooms = some room)
    (hquiz : lookupKey room.quizId st.quizzes = some quiz) :
    startQuiz st code =
      ⟨(startQuestionTimer { st with rooms := setKey code { room with currentQuestion := 0 } st.rooms } code).1,
       [⟨Target.room code, Event.newQuestion (jsIndex quiz.questions 0)⟩],
       (startQuestionTimer { st with rooms := setKey code { room with currentQuestion := 0 } st.rooms } code).2⟩ := by
  unfold startQuiz
  rw [hroom]
  simp [hquiz]

theorem joinQuiz_no_room (st : ServerState) (code name pid : String)
    (hroom : lookupKey (jsToUpperCase code) st.rooms = none) :
    joinQuiz st code name pid = ⟨st, [⟨Target.sock pid, Event.joinError "Room not found. Please check the code."⟩], false⟩ := by
  unfold joinQuiz
  rw [hroom]

theorem joinQuiz_eq (st : ServerState) (code name pid : String) (room : Room)
    (hroom : lookupKey (jsToUpperCase code) st.rooms = some room) :
    joinQuiz st code name pid =
      ⟨{ st with rooms := setKey (jsToUpperCase code) { room with players := room.players ++ [⟨pid, name, 0⟩], leaderboard := setKey pid ⟨name, 0, []⟩ room.leaderboard } st.rooms },
       [⟨Target.sock pid, Event.joinedRoom (jsToUpperCase code) room.title (room.players ++ [⟨pid, name, 0⟩])⟩,
        ⟨Target.room (jsToUpperCase code), Event.playerJoined (room.players ++ [⟨pid, name, 0⟩]) room.title⟩], false⟩ := by
  unfold joinQuiz
  rw [hroom]

theorem findPlayerIdx_eq_none (pid : String) (l : List Player)
    (h : ∀ p ∈ l, p.id ≠ pid) : findPlayerIdx pid l = none := by
  induction l with
  | nil => rfl
  | cons p rest ih =>
    have hp : ¬ (p.id = pid) := h p (List.mem_cons_self p rest)
    rw [findPlayerIdx, if_neg hp, ih (fun x hx => h x (List.mem_cons_of_mem p hx))]
    rfl

theorem disconnectLoop_skip (st : ServerState) (pid code : String) (room : Room)
    (rest : List (String × Room))
    (hhost : room.hostId ≠ pid)
    (hplayers : findPlayerIdx pid room.players = none) :
    disconnectLoop st pid ((code, room) :: rest) = disconnectLoop st pid rest := by
  rw [disconnectLoop, if_neg hhost, hplayers]

theorem disconnectLoop_player (st : ServerState) (pid code : String) (room : Room)
    (rest : List (String × Room)) (i : Nat)
    (hhost : room.hostId ≠ pid)
    (hfind : findPlayerIdx pid room.players = some i) :
    disconnectLoop st pid ((code, room) :: rest) =
      ({ st with rooms := setKey code { room with players := room.players.eraseIdx i, leaderboard := delKey pid room.leaderboard } st.rooms },
       [⟨Target.room code, Event.playerJoined (room.players.eraseIdx i) room.title⟩]) := by
  rw [disconnectLoop, if_neg hhost, hfind]

theorem disconnectLoop_over_pre (st : ServerState) (pid : String)
    (pre tail : List (String × Room))
    (hpre : ∀ cr ∈ pre, (Prod.snd cr).hostId ≠ pid ∧ findPlayerIdx pid (Prod.snd cr).players = none) :
    disconnectLoop st pid (pre ++ tail) = disconnectLoop st pid tail := by
  induction pre with
  | nil => rfl
  | cons hd t ih =>
    obtain ⟨c, r⟩ := hd
    have h1 := hpre (c, r) (List.mem_cons_self _ _)
    rw [List.cons_append, disconnectLoop_skip st pid c r (t ++ tail) h1.1 h1.2]
    exact ih (fun p hp => hpre p (List.mem_cons_of_mem _ hp))

theorem eraseIdx_findPlayerIdx (pid : String) (l : List Player) (i : Nat)
    (hfind : findPlayerIdx pid l = some i)
    (hu : (l.filter (fun p => p.id == pid)).length ≤ 1) :
    l.eraseIdx i = l.filter (fun p => p.id != pid) := by
  induction l generalizing i with
  | nil => simp [findPlayerIdx] at hfind
  | cons p rest ih =>
    by_cases hp : p.id = pid
    · rw [findPlayerIdx, if_pos hp] at hfind
      injection hfind with hi
      subst hi
      rw [List.eraseIdx_cons_zero]
      have hpb : (p.id == pid) = true := by simp [hp]
      rw [List.filter_cons, if_pos hpb] at hu
      have hz : (rest.filter (fun p => p.id == pid)).length = 0 := by
        simp only [List.length_cons] at hu
        omega
      have hrest : ∀ x ∈ rest, ¬ (x.id == pid) = true := by
        intro x hx
        exact (List.filter_eq_nil_iff.mp (List.eq_nil_of_length_eq_zero hz)) x hx
      have hpz : ¬ (p.id != pid) = true := by simp [hp]
      rw [List.filter_cons, if_neg hpz]
      symm
      apply List.filter_eq_self.mpr
      intro x hx
      have := hrest x hx
      simp only [beq_iff_eq] at this
      simp [this]
    · rw [findPlayerIdx, if_neg hp] at hfind
      rcases Option.map_eq_some'.mp hfind with ⟨j, hj, hij⟩
      subst hij
      rw [List.eraseIdx_cons_succ]
      have hpb : ¬ (p.id == pid) = true := by simp [hp]
      rw [List.filter_cons, if_neg hpb] at hu
      have hpz : (p.id != pid) = true := by simp [hp]
      rw [List.filter_cons, if_pos hpz, ih j hj hu]

theorem filter_swap {α : Type} (p q : α → Bool) (l : List α) :
    (l.filter p).filter q = (l.filter q).filter p := by
  induction l with
  | nil => rfl
  | cons a t ih =>
    by_cases hp : p a = true <;> by_cases hq : q a = true <;>
      simp [List.filter_cons, hp, hq, ih]

theorem armedFor_clear_arm (pending : List (Nat × String)) (code : String)
    (timer : Option Nat) (tid : Nat)
    (h : pending.filter (fun p => p.2 == code) = timerSlot code timer) :
    (clearPending timer pending ++ [(tid, code)]).filter (fun p => p.2 == code) = [(tid, code)] := by
  cases timer with
  | none =>
    rw [List.filter_append, clearPending, h]
    simp [timerSlot, List.filter]
  | some t =>
    rw [List.filter_append, clearPending, filter_swap, h]
    simp [timerSlot, List.filter]

theorem nextQuestionIter_finished (k : Nat) :
    ∀ (st : ServerState) (code : String) (room : Room) (quiz : Quiz),
      lookupKey code st.rooms = some room →
      lookupKey room.quizId st.quizzes = some quiz →
      (quiz.questions.length : Int) ≤ room.currentQuestion + 1 →
      (nextQuestionIter st code k).1.rooms =
        setKey code { room with currentQuestion := room.currentQuestion + (k : Int) } st.rooms ∧
      (nextQuestionIter st code k).2 =
        List.replicate k ⟨Target.room code, Event.quizFinished (sortLB (room.leaderboard.map Prod.snd))⟩ := by
  induction k with
  | zero =>
    intro st code room quiz hroom hquiz hfin
    constructor
    · have : ({ room with currentQuestion := room.currentQuestion + ((0 : Nat) : Int) } : Room) = room := by
        simp
      rw [this, setKey_eq_of_lookup code room st.rooms hroom]
      rfl
    · rfl
  | succ n ih =>
    intro st code room quiz hroom hquiz hfin
    have hstep := nextQuestion_finished_eq st code room quiz hroom hquiz hfin
    rw [nextQuestionIter]
    rw [hstep]
    set room1 : Room := { room with currentQuestion := room.currentQuestion + 1 } with hroom1def
    set st1 : ServerState := { st with rooms := setKey code room1 st.rooms } with hst1def
    have hroom1 : lookupKey code st1.rooms = some room1 := lookupKey_setKey_self code room1 st.rooms
    have hquiz1 : lookupKey room1.quizId st1.quizzes = some quiz := hquiz
    have hfin1 : (quiz.questions.length : Int) ≤ room1.currentQuestion + 1 := by
      simp only [hroom1def]
      omega
    have hrec := ih st1 code room1 quiz hroom1 hquiz1 hfin1
    constructor
    · rw [hrec.1]
      simp only [hst1def, hroom1def]
      rw [setKey_setKey]
      have : room.currentQuestion + 1 + (n : Int) = room.currentQuestion + ((n + 1 : Nat) : Int) := by
        push_cast
        omega
      rw [this]
    · rw [hrec.2]
      simp only [hroom1def]
      rfl

/-- Concrete quiz questions for witness states. -/
def sampleQ1 : Question := ⟨"Capital of France", ["Paris", "Rome"], "Paris", 10⟩

def sampleQ2 : Question := ⟨"Two plus two", ["3", "4"], "4", 15⟩

def sampleQuiz : Quiz := ⟨"Geo", [sampleQ1, sampleQ2]⟩

def sampleEntry : LBEntry := ⟨"Alice", 0, []⟩

/-- A room in the first question with one joined player and an armed timer. -/
def sampleRoom : Room := ⟨"quiz-1", "Geo", [⟨"p1", "Alice", 0⟩], 0, [("p1", sampleEntry)], "host1", some 5⟩

def sampleState : ServerState := ⟨[("quiz-1", sampleQuiz)], [("AB3X", sampleRoom)], [(5, "AB3X")], 6⟩

/-- The same room still in the lobby (currentQuestion is -1). -/
def lobbyRoom : Room := { sampleRoom with currentQuestion := -1, timer := none }

def lobbyState : ServerState := ⟨[("quiz-1", sampleQuiz)], [("AB3X", lobbyRoom)], [], 1⟩

/-- The same room beyond the last question (currentQuestion is 2). -/
def finRoom : Room := { sampleRoom with currentQuestion := 2 }

def finState : ServerState := ⟨[("quiz-1", sampleQuiz)], [("AB3X", finRoom)], [(5, "AB3X")], 6⟩

/-- A room on the last question (index 1 of 2) with the timer armed. -/
def lastQRoom : Room := { sampleRoom with currentQuestion := 1 }

def lastQState : ServerState := ⟨[("quiz-1", sampleQuiz)], [("AB3X", lastQRoom)], [(5, "AB3X")], 6⟩

/-- C1: while the same question is current, only the first submitAnswer by a
    participant appends an AnswerRecord; the first call appends exactly one
    record for the current index, and every later submitAnswer by the same
    participant (any answers, any number of calls) leaves the state — in
    particular that participant's answers and score — completely unchanged,
    so the score changes at most once per question. -/
theorem submit_once_per_question (st : ServerState) (code pid answer : String)
    (room : Room) (entry : LBEntry) (quiz : Quiz) (q : Question)
    (hroom : lookupKey code st.rooms = some room)
    (hentry : lookupKey pid room.leaderboard = some entry)
    (hnew : hasRecordAt room.currentQuestion entry.answers = false)
    (hquiz : lookupKey room.quizId st.quizzes = some quiz)
    (hq : jsIndex quiz.questions room.currentQuestion = some q) :
    (submitAnswer st code pid answer).crashed = false ∧
    lookupKey code (submitAnswer st code pid answer).st.rooms =
      some { room with leaderboard := setKey pid { entry with answers := entry.answers ++ [⟨room.currentQuestion, answer, answer == q.correctAnswer⟩], score := entry.score + (if (answer == q.correctAnswer) then 10 else 0) } room.leaderboard } ∧
    (∀ rest : List String,
      submitSeq (submitAnswer st code pid answer).st code pid rest = (submitAnswer st code pid answer).st) := by
  have hdup : hasAnsweredCurrent room pid = false := by
    unfold hasAnsweredCurrent answersOf
    rw [hentry]
    exact hnew
  have hmain := submit_first_eq st code pid answer room quiz q hroom hdup hquiz hq
  have happly := applyAnswer_entry room pid answer (answer == q.correctAnswer) entry hentry
  refine ⟨by rw [hmain], ?_, ?_⟩
  · rw [hmain]
    show lookupKey code (setKey code (applyAnswer room pid answer (answer == q.correctAnswer)) st.rooms) = _
    rw [lookupKey_setKey_self, happly]
  · intro rest
    have hroom1 : lookupKey code (submitAnswer st code pid answer).st.rooms =
        some (applyAnswer room pid answer (answer == q.correctAnswer)) := by
      rw [hmain]
      exact lookupKey_setKey_self code _ st.rooms
    have hdup1 : hasAnsweredCurrent (applyAnswer room pid answer (answer == q.correctAnswer)) pid = true := by
      rw [happly]
      unfold hasAnsweredCurrent answersOf
      show hasRecordAt room.currentQuestion (match lookupKey pid (setKey pid _ room.leaderboard) with | some e => e.answers | none => []) = true
      rw [lookupKey_setKey_self]
      show hasRecordAt room.currentQuestion (entry.answers ++ [⟨room.currentQuestion, answer, answer == q.correctAnswer⟩]) = true
      rw [hasRecordAt_append, hnew]
      simp [hasRecordAt]
    exact submitSeq_noop (submitAnswer st code pid answer).st code pid _ hroom1 hdup1 rest

theorem submit_once_per_question_witness :
    submitSeq (submitAnswer sampleState "AB3X" "p1" "Paris").st "AB3X" "p1" ["Paris", "Rome", "Paris"] =
      (submitAnswer sampleState "AB3X" "p1" "Paris").st :=
  (submit_once_per_question sampleState "AB3X" "p1" "Paris" sampleRoom sampleEntry sampleQuiz sampleQ1
    (by decide) (by decide) (by decide) (by decide) (by decide)).2.2 ["Paris", "Rome", "Paris"]

/-- C4 counterexample: the claim says a submitAnswer while the session is
    not InQuestion, or for an unknown participant, rejects silently with no
    crash and no emission.  In the concrete lobby state (currentQuestion
    is -1, participant p1 joined, no prior record) the handler throws a
    TypeError instead of rejecting silently, and in the concrete InQuestion
    state a submission by the unknown participant ghost still emits. -/
theorem submit_reject_counterexample :
    (submitAnswer lobbyState "AB3X" "p1" "Paris").crashed = true ∧
    (submitAnswer sampleState "AB3X" "ghost" "Paris").out ≠ [] := by
  decide

/-- C4 amended: submitAnswer rejects silently (state unchanged, nothing
    emitted, no crash) exactly when the session does not exist or the
    participant already has a record for the current index.  When the
    participant has no record for the current index and the index is out of
    range (Lobby at -1 or Finished at or past the question count), the
    handler throws with the state unchanged and nothing emitted, instead of
    rejecting silently.  When the index is in range but the participant is
    unknown, the state is unchanged but the handler still emits the sorted
    leaderboard to the host and a zero scoreUpdate to the caller. -/
theorem submit_reject_and_crash_cases :
    (∀ (st : ServerState) (code pid answer : String), lookupKey code st.rooms = none →
        submitAnswer st code pid answer = ⟨st, [], false⟩) ∧
    (∀ (st : ServerState) (code pid answer : String) (room : Room),
        lookupKey code st.rooms = some room →
        hasAnsweredCurrent room pid = true →
        submitAnswer st code pid answer = ⟨st, [], false⟩) ∧
    (∀ (st : ServerState) (code pid answer : String) (room : Room) (quiz : Quiz),
        lookupKey code st.rooms = some room →
        hasAnsweredCurrent room pid = false →
        lookupKey room.quizId st.quizzes = some quiz →
        jsIndex quiz.questions room.currentQuestion = none →
        submitAnswer st code pid answer = ⟨st, [], true⟩) ∧
    (∀ (st : ServerState) (code pid answer : String) (room : Room) (quiz : Quiz) (q : Question),
        lookupKey code st.rooms = some room →
        lookupKey pid room.leaderboard = none →
        lookupKey room.quizId st.quizzes = some quiz →
        jsIndex quiz.questions room.currentQuestion = some q →
        (submitAnswer st code pid answer).st = st ∧
        (submitAnswer st code pid answer).out =
          (if room.hostId = "" then [] else [⟨Target.sock room.hostId, Event.updateLeaderboard (sortLB (room.leaderboard.map Prod.snd))⟩]) ++ [⟨Target.sock pid, Event.scoreUpdate 0⟩]) := by
  refine ⟨submit_no_room, submit_duplicate_noop, submit_crash_no_question, ?_⟩
  intro st code pid answer room quiz q hroom hentry hquiz hq
  have hdup : hasAnsweredCurrent room pid = false := by
    unfold hasAnsweredCurrent answersOf
    rw [hentry]
    rfl
  have hmain := submit_first_eq st code pid answer room quiz q hroom hdup hquiz hq
  have happly := applyAnswer_none room pid answer (answer == q.correctAnswer) hentry
  rw [hmain, happly]
  constructor
  · show ({ st with rooms := setKey code room st.rooms } : ServerState) = st
    rw [setKey_eq_of_lookup code room st.rooms hroom]
  · have hsc : scoreOf pid room.leaderboard = 0 := by
      unfold scoreOf
      rw [hentry]
    simp only [hsc]

theorem submit_reject_and_crash_cases_witness :
    submitAnswer lobbyState "AB3X" "p1" "Paris" = ⟨lobbyState, [], true⟩ :=
  submit_reject_and_crash_cases.2.2.1 lobbyState "AB3X" "p1" "Paris" lobbyRoom sampleQuiz
    (by decide) (by decide) (by decide) (by decide)

/-- C5: on the first submission of a participant for the current question,
    submitAnswer appends exactly one AnswerRecord whose correct flag is the
    strict equality of the answer with the current correctAnswer, adds
    exactly 10 to that participant's score when the answer is equal and
    leaves the score unchanged otherwise, and changes no other
    participant's leaderboard entry. -/
theorem submit_first_scoring (st : ServerState) (code pid answer : String)
    (room : Room) (entry : LBEntry) (quiz : Quiz) (q : Question)
    (hroom : lookupKey code st.rooms = some room)
    (hentry : lookupKey pid room.leaderboard = some entry)
    (hnew : hasRecordAt room.currentQuestion entry.answers = false)
    (hquiz : lookupKey room.quizId st.quizzes = some quiz)
    (hq : jsIndex quiz.questions room.currentQuestion = some q) :
    (submitAnswer st code pid answer).crashed = false ∧
    lookupKey code (submitAnswer st code pid answer).st.rooms =
      some (applyAnswer room pid answer (answer == q.correctAnswer)) ∧
    lookupKey pid (applyAnswer room pid answer (answer == q.correctAnswer)).leaderboard =
      some { entry with answers := entry.answers ++ [⟨room.currentQuestion, answer, answer == q.correctAnswer⟩], score := entry.score + (if (answer == q.correctAnswer) then 10 else 0) } ∧
    (answer = q.correctAnswer →
      scoreOf pid (applyAnswer room pid answer (answer == q.correctAnswer)).leaderboard = entry.score + 10) ∧
    (answer ≠ q.correctAnswer →
      scoreOf pid (applyAnswer room pid answer (answer == q.correctAnswer)).leaderboard = entry.score) ∧
    (∀ pid2, pid2 ≠ pid →
      lookupKey pid2 (applyAnswer room pid answer (answer == q.correctAnswer)).leaderboard =
        lookupKey pid2 room.leaderboard) := by
  have hdup : hasAnsweredCurrent room pid = false := by
    unfold hasAnsweredCurrent answersOf
    rw [hentry]
    exact hnew
  have hmain := submit_first_eq st code pid answer room quiz q hroom hdup hquiz hq
  have happly := applyAnswer_entry room pid answer (answer == q.correctAnswer) entry hentry
  refine ⟨by rw [hmain], ?_, ?_, ?_, ?_, ?_⟩
  · rw [hmain]
    exact lookupKey_setKey_self code _ st.rooms
  · rw [happly]
    exact lookupKey_setKey_self pid _ room.leaderboard
  · intro hcorr
    rw [happly]
    unfold scoreOf
    rw [lookupKey_setKey_self]
    simp [hcorr]
  · intro hwrong
    rw [happly]
    unfold scoreOf
    rw [lookupKey_setKey_self]
    simp [hwrong]
  · intro pid2 hne
    rw [happly]
    exact lookupKey_setKey_ne pid pid2 _ room.leaderboard hne

theorem submit_first_scoring_witness :
    scoreOf "p1" (applyAnswer sampleRoom "p1" "Paris" ("Paris" == sampleQ1.correctAnswer)).leaderboard =
      sampleEntry.score + 10 :=
  (submit_first_scoring sampleState "AB3X" "p1" "Paris" sampleRoom sampleEntry sampleQuiz sampleQ1
    (by decide) (by decide) (by decide) (by decide) (by decide)).2.2.2.1 rfl

/-- C2 counterexample: in the concrete state whose room has
    currentQuestion 2 with a 2-question quiz (the Finished state), a
    further nextQuestion does not leave the index unchanged: it increments
    it to 3. -/
theorem advance_after_finish_counterexample :
    (lookupKey "AB3X" finState.rooms).map Room.currentQuestion = some 2 ∧
    (lookupKey "AB3X" (nextQuestion finState "AB3X").st.rooms).map Room.currentQuestion = some 3 := by
  decide

/-- C2 amended: once currentQuestionIndex has reached the question count,
    every further nextQuestion still increments the index by one (after k
    calls it is the old index plus k, growing without bound), never
    broadcasts newQuestion, and instead re-broadcasts quizFinished with the
    sorted leaderboard on every call. -/
theorem advance_after_finish_increments (st : ServerState) (code : String) (room : Room) (quiz : Quiz)
    (hroom : lookupKey code st.rooms = some room)
    (hquiz : lookupKey room.quizId st.quizzes = some quiz)
    (hfin : (quiz.questions.length : Int) ≤ room.currentQuestion + 1) :
    ∀ k : Nat,
      (nextQuestionIter st code k).1.rooms =
        setKey code { room with currentQuestion := room.currentQuestion + (k : Int) } st.rooms ∧
      (nextQuestionIter st code k).2 =
        List.replicate k ⟨Target.room code, Event.quizFinished (sortLB (room.leaderboard.map Prod.snd))⟩ :=
  fun k => nextQuestionIter_finished k st code room quiz hroom hquiz hfin

theorem advance_after_finish_increments_witness :
    (nextQuestionIter finState "AB3X" 2).1.rooms =
      setKey "AB3X" { finRoom with currentQuestion := finRoom.currentQuestion + ((2 : Nat) : Int) } finState.rooms ∧
    (nextQuestionIter finState "AB3X" 2).2 =
      List.replicate 2 ⟨Target.room "AB3X", Event.quizFinished (sortLB (finRoom.leaderboard.map Prod.snd))⟩ :=
  advance_after_finish_increments finState "AB3X" finRoom sampleQuiz (by decide) (by decide) (by decide) 2

/-- C3 counterexample: advancing from the last question with the question
    timer armed reaches the Finished transition (quizFinished broadcast)
    but the armed timer with handle 5 survives it: the out-of-range path of
    nextQuestion cancels nothing. -/
theorem advance_timer_counterexample :
    (nextQuestion lastQState "AB3X").st.pendingTimers = [(5, "AB3X")] ∧
    (nextQuestion lastQState "AB3X").out =
      [⟨Target.room "AB3X", Event.quizFinished (sortLB (lastQRoom.leaderboard.map Prod.snd))⟩] := by
  decide

/-- C3 amended: nextQuestion cancels the outstanding question timer only on
    the in-range path, inside startQuestionTimer after the index increment,
    where the old timer of the room is cleared and exactly one fresh timer
    is armed in its place (so at most one question timer is armed per room
    across an advance); on the out-of-range path nothing is canceled: the
    armed runtime timers are untouched, so a timer armed at the final
    advance remains armed after the transition to Finished. -/
theorem advance_timer_cancel_only_inrange (st : ServerState) (code : String) (room : Room) (quiz : Quiz)
    (hroom : lookupKey code st.rooms = some room)
    (hquiz : lookupKey room.quizId st.quizzes = some quiz)
    (harm : armedFor st code = timerSlot code room.timer) :
    (0 ≤ room.currentQuestion + 1 → room.currentQuestion + 1 < (quiz.questions.length : Int) →
      armedFor (nextQuestion st code).st code = [(st.nextTimerId, code)] ∧
      lookupKey code (nextQuestion st code).st.rooms =
        some { room with currentQuestion := room.currentQuestion + 1, timer := some st.nextTimerId } ∧
      (nextQuestion st code).crashed = false) ∧
    ((quiz.questions.length : Int) ≤ room.currentQuestion + 1 →
      (nextQuestion st code).st.pendingTimers = st.pendingTimers ∧
      armedFor (nextQuestion st code).st code = timerSlot code room.timer) := by
  constructor
  · intro h0 hin
    obtain ⟨q', hq'⟩ := jsIndex_eq_some quiz.questions (room.currentQuestion + 1) h0 hin
    have hstep := nextQuestion_inrange_eq st code room quiz hroom hquiz hin
    have hroom1 : lookupKey code (setKey code ({ room with currentQuestion := room.currentQuestion + 1 }) st.rooms) = some ({ room with currentQuestion := room.currentQuestion + 1 } : Room) :=
      lookupKey_setKey_self code _ st.rooms
    have harm1 := startQuestionTimer_arm { st with rooms := setKey code ({ room with currentQuestion := room.currentQuestion + 1 }) st.rooms } code ({ room with currentQuestion := room.currentQuestion + 1 }) quiz q' hroom1 hquiz hq'
    refine ⟨?_, ?_, ?_⟩
    · rw [hstep]
      show armedFor (startQuestionTimer { st with rooms := setKey code ({ room with currentQuestion := room.currentQuestion + 1 }) st.rooms } code).1 code = _
      rw [harm1]
      exact armedFor_clear_arm st.pendingTimers code room.timer st.nextTimerId harm
    · rw [hstep]
      show lookupKey code (startQuestionTimer { st with rooms := setKey code ({ room with currentQuestion := room.currentQuestion + 1 }) st.rooms } code).1.rooms = _
      rw [harm1]
      show lookupKey code (setKey code _ (setKey code _ st.rooms)) = _
      rw [setKey_setKey]
      exact lookupKey_setKey_self code _ st.rooms
    · rw [hstep]
      show (startQuestionTimer { st with rooms := setKey code ({ room with currentQuestion := room.currentQuestion + 1 }) st.rooms } code).2 = false
      rw [harm1]
  · intro hfin
    have hstep := nextQuestion_finished_eq st code room quiz hroom hquiz hfin
    rw [hstep]
    exact ⟨rfl, harm⟩

theorem advance_timer_cancel_only_inrange_witness :
    armedFor (nextQuestion sampleState "AB3X").st "AB3X" = [(6, "AB3X")] ∧
    (nextQuestion sampleState "AB3X").crashed = false :=
  have h := (advance_timer_cancel_only_inrange sampleState "AB3X" sampleRoom sampleQuiz
    (by decide) (by decide) (by decide)).1 (by decide) (by decide)
  ⟨h.1, h.2.2⟩

/-- C6: every ranking the system emits is the list of leaderboard entries
    sorted in non-increasing score order with ties kept in their original
    insertion (join) order: sortLB is a permutation of its input, pairwise
    non-increasing on scores, and for every score value the entries with
    that score keep exactly their original relative order; after a counted
    submission the sorted ranking goes to the host socket only while the
    submitter receives only a scoreUpdate with their own score, and the
    quizFinished ranking broadcast to the room is the sorted leaderboard. -/
theorem emitted_rankings_sorted_stable
    (l : List LBEntry) (s : Nat)
    (st : ServerState) (code pid answer : String) (room : Room) (quiz : Quiz) (q : Question)
    (hroom : lookupKey code st.rooms = some room)
    (hdup : hasAnsweredCurrent room pid = false)
    (hquiz : lookupKey room.quizId st.quizzes = some quiz)
    (hq : jsIndex quiz.questions room.currentQuestion = some q)
    (hhost : room.hostId ≠ "")
    (st2 : ServerState) (code2 : String) (room2 : Room) (quiz2 : Quiz)
    (hroom2 : lookupKey code2 st2.rooms = some room2)
    (hquiz2 : lookupKey room2.quizId st2.quizzes = some quiz2)
    (hfin : (quiz2.questions.length : Int) ≤ room2.currentQuestion + 1) :
    List.Pairwise (fun a b => b.score ≤ a.score) (sortLB l) ∧
    (sortLB l).filter (fun e => e.score == s) = l.filter (fun e => e.score == s) ∧
    List.Perm (sortLB l) l ∧
    (submitAnswer st code pid answer).out =
      [⟨Target.sock room.hostId, Event.updateLeaderboard (sortLB ((applyAnswer room pid answer (answer == q.correctAnswer)).leaderboard.map Prod.snd))⟩,
       ⟨Target.sock pid, Event.scoreUpdate (scoreOf pid (applyAnswer room pid answer (answer == q.correctAnswer)).leaderboard)⟩] ∧
    (nextQuestion st2 code2).out =
      [⟨Target.room code2, Event.quizFinished (sortLB (room2.leaderboard.map Prod.snd))⟩] := by
  refine ⟨sortLB_pairwise l, sortLB_filter_score l s, sortLB_perm l, ?_, ?_⟩
  · rw [submit_first_eq st code pid answer room quiz q hroom hdup hquiz hq]
    show (if room.hostId = "" then ([] : List Emission) else [⟨Target.sock room.hostId, Event.updateLeaderboard (sortLB ((applyAnswer room pid answer (answer == q.correctAnswer)).leaderboard.map Prod.snd))⟩]) ++ [⟨Target.sock pid, Event.scoreUpdate (scoreOf pid (applyAnswer room pid answer (answer == q.correctAnswer)).leaderboard)⟩] = _
    rw [if_neg hhost]
    rfl
  · rw [nextQuestion_finished_eq st2 code2 room2 quiz2 hroom2 hquiz2 hfin]

theorem emitted_rankings_sorted_stable_witness :
    (sortLB [⟨"A", 10, []⟩, ⟨"B", 20, []⟩, ⟨"C", 10, []⟩]).filter (fun e => e.score == 10) =
      ([⟨"A", 10, []⟩, ⟨"B", 20, []⟩, ⟨"C", 10, []⟩] : List LBEntry).filter (fun e => e.score == 10) ∧
    (nextQuestion finState "AB3X").out =
      [⟨Target.room "AB3X", Event.quizFinished (sortLB (finRoom.leaderboard.map Prod.snd))⟩] :=
  have h := emitted_rankings_sorted_stable [⟨"A", 10, []⟩, ⟨"B", 20, []⟩, ⟨"C", 10, []⟩] 10
    sampleState "AB3X" "p1" "Paris" sampleRoom sampleQuiz sampleQ1
    (by decide) (by decide) (by decide) (by decide) (by decide)
    finState "AB3X" finRoom sampleQuiz (by decide) (by decide) (by decide)
  ⟨h.2.1, h.2.2.2.2⟩

theorem startQuiz_no_room (st : ServerState) (code : String)
    (hroom : lookupKey code st.rooms = none) : startQuiz st code = ⟨st, [], false⟩ := by
  unfold startQuiz
  rw [hroom]

/-- C7 counterexample: the claim says startQuiz from a non-Lobby state is a
    no-op.  In the concrete state whose room is InQuestion at index 1, the
    startQuiz handler resets the index to 0 (so the index decreases) and
    broadcasts again. -/
theorem start_not_noop_counterexample :
    (lookupKey "AB3X" lastQState.rooms).map Room.currentQuestion = some 1 ∧
    (lookupKey "AB3X" (startQuiz lastQState "AB3X").st.rooms).map Room.currentQuestion = some 0 ∧
    (startQuiz lastQState "AB3X").out ≠ [] := by
  decide

/-- C7 amended: startQuiz on an existing room is unguarded: from any state
    (Lobby, InQuestion or Finished) it sets currentQuestion to 0 — so the
    index can decrease on re-entry — broadcasts question 0 again and arms a
    fresh timer (clearing a previously armed one); only a missing room code
    makes it a no-op. -/
theorem start_resets_unconditionally (st : ServerState) (code : String) (room : Room) (quiz : Quiz) (q0 : Question)
    (hroom : lookupKey code st.rooms = some room)
    (hquiz : lookupKey room.quizId st.quizzes = some quiz)
    (hq0 : jsIndex quiz.questions 0 = some q0) :
    (startQuiz st code).crashed = false ∧
    lookupKey code (startQuiz st code).st.rooms = some { room with currentQuestion := 0, timer := some st.nextTimerId } ∧
    (startQuiz st code).out = [⟨Target.room code, Event.newQuestion (some q0)⟩] ∧
    (startQuiz st code).st.pendingTimers = clearPending room.timer st.pendingTimers ++ [(st.nextTimerId, code)] ∧
    (∀ (st2 : ServerState) (code2 : String), lookupKey code2 st2.rooms = none → startQuiz st2 code2 = ⟨st2, [], false⟩) := by
  have hstep := startQuiz_eq st code room quiz hroom hquiz
  have hroom0 : lookupKey code (setKey code ({ room with currentQuestion := 0 }) st.rooms) = some ({ room with currentQuestion := 0 } : Room) :=
    lookupKey_setKey_self code _ st.rooms
  have harm0 := startQuestionTimer_arm { st with rooms := setKey code ({ room with currentQuestion := 0 }) st.rooms } code ({ room with currentQuestion := 0 }) quiz q0 hroom0 hquiz hq0
  refine ⟨?_, ?_, ?_, ?_, startQuiz_no_room⟩
  · rw [hstep]
    show (startQuestionTimer { st with rooms := setKey code ({ room with currentQuestion := 0 }) st.rooms } code).2 = false
    rw [harm0]
  · rw [hstep]
    show lookupKey code (startQuestionTimer { st with rooms := setKey code ({ room with currentQuestion := 0 }) st.rooms } code).1.rooms = _
    rw [harm0]
    show lookupKey code (setKey code _ (setKey code _ st.rooms)) = _
    rw [setKey_setKey]
    exact lookupKey_setKey_self code _ st.rooms
  · rw [hstep, hq0]
  · rw [hstep]
    show (startQuestionTimer { st with rooms := setKey code ({ room with currentQuestion := 0 }) st.rooms } code).1.pendingTimers = _
    rw [harm0]

theorem start_resets_unconditionally_witness :
    lookupKey "AB3X" (startQuiz lastQState "AB3X").st.rooms =
      some { lastQRoom with currentQuestion := 0, timer := some 6 } :=
  (start_resets_unconditionally lastQState "AB3X" lastQRoom sampleQuiz sampleQ1
    (by decide) (by decide) (by decide)).2.1

/-- C8: joinQuiz normalizes the supplied room code to uppercase before the
    lookup (so a lowercase code matches a room stored under the uppercase
    code, as the witness exhibits); when no room is stored under the
    normalized code the joiner gets joinError and nothing changes, and on
    success the player is appended to the roster, a zero-score leaderboard
    entry is created, the joiner is told the normalized room code, quiz
    title and roster, and the whole room receives the updated roster and
    title. -/
theorem join_normalizes_and_updates (st : ServerState) (code name pid : String) :
    (lookupKey (jsToUpperCase code) st.rooms = none →
      joinQuiz st code name pid = ⟨st, [⟨Target.sock pid, Event.joinError "Room not found. Please check the code."⟩], false⟩) ∧
    (∀ room : Room, lookupKey (jsToUpperCase code) st.rooms = some room →
      joinQuiz st code name pid = ⟨{ st with rooms := setKey (jsToUpperCase code) { room with players := room.players ++ [⟨pid, name, 0⟩], leaderboard := setKey pid ⟨name, 0, []⟩ room.leaderboard } st.rooms }, [⟨Target.sock pid, Event.joinedRoom (jsToUpperCase code) room.title (room.players ++ [⟨pid, name, 0⟩])⟩, ⟨Target.room (jsToUpperCase code), Event.playerJoined (room.players ++ [⟨pid, name, 0⟩]) room.title⟩], false⟩) :=
  ⟨joinQuiz_no_room st code name pid, fun room h => joinQuiz_eq st code name pid room h⟩

theorem join_normalizes_and_updates_witness :
    joinQuiz sampleState "ab3x" "Bob" "p2" =
      ⟨{ sampleState with rooms := setKey (jsToUpperCase "ab3x") { sampleRoom with players := sampleRoom.players ++ [⟨"p2", "Bob", 0⟩], leaderboard := setKey "p2" ⟨"Bob", 0, []⟩ sampleRoom.leaderboard } sampleState.rooms }, [⟨Target.sock "p2", Event.joinedRoom (jsToUpperCase "ab3x") sampleRoom.title (sampleRoom.players ++ [⟨"p2", "Bob", 0⟩])⟩, ⟨Target.room (jsToUpperCase "ab3x"), Event.playerJoined (sampleRoom.players ++ [⟨"p2", "Bob", 0⟩]) sampleRoom.title⟩], false⟩ :=
  (join_normalizes_and_updates sampleState "ab3x" "Bob" "p2").2 sampleRoom (by decide)

/-- A second concrete room with two players and its own armed timer. -/
def roomB : Room := ⟨"quiz-2", "Math", [⟨"p2", "Bob", 0⟩, ⟨"p3", "Cara", 0⟩], 0, [("p2", ⟨"Bob", 10, [⟨0, "4", true⟩]⟩), ("p3", ⟨"Cara", 0, []⟩)], "host2", some 7⟩

def twoRoomState : ServerState := ⟨[("quiz-1", sampleQuiz), ("quiz-2", sampleQuiz)], [("AB3X", sampleRoom), ("CD4Y", roomB)], [(5, "AB3X"), (7, "CD4Y")], 8⟩

/-- C9: disconnecting a socket that hosts no session and sits in the roster
    of the session stored under code (and in no earlier roster) removes
    exactly that roster entry and exactly that leaderboard entry of that
    one session, emits the updated roster to that room, and changes nothing
    else: rooms under other codes keep their bindings, other leaderboard
    entries are still found unchanged, and the quizzes store, the armed
    timers, and the remaining fields of the affected room (quizId, title,
    currentQuestion, hostId, timer) are untouched. -/
theorem disconnect_nonhost_removes_exactly_one (st : ServerState) (pid : String)
    (pre post : List (String × Room)) (code : String) (room : Room) (i : Nat)
    (hrooms : st.rooms = pre ++ (code, room) :: post)
    (hhost : ∀ cr ∈ st.rooms, (Prod.snd cr).hostId ≠ pid)
    (hpre : ∀ cr ∈ pre, ∀ pl ∈ (Prod.snd cr).players, pl.id ≠ pid)
    (hfind : findPlayerIdx pid room.players = some i)
    (hu : (room.players.filter (fun p => p.id == pid)).length ≤ 1)
    (hnd : (room.leaderboard.map Prod.fst).Nodup) :
    disconnect st pid =
      ({ st with rooms := setKey code { room with players := room.players.filter (fun p => p.id != pid), leaderboard := delKey pid room.leaderboard } st.rooms },
       [⟨Target.room code, Event.playerJoined (room.players.filter (fun p => p.id != pid)) room.title⟩]) ∧
    (∀ c, c ≠ code → lookupKey c (disconnect st pid).1.rooms = lookupKey c st.rooms) ∧
    lookupKey pid (delKey pid room.leaderboard) = none ∧
    (∀ pid2, pid2 ≠ pid → lookupKey pid2 (delKey pid room.leaderboard) = lookupKey pid2 room.leaderboard) ∧
    (disconnect st pid).1.quizzes = st.quizzes ∧
    (disconnect st pid).1.pendingTimers = st.pendingTimers := by
  have hhostroom : room.hostId ≠ pid := by
    refine hhost (code, room) ?_
    rw [hrooms]
    exact List.mem_append_right _ (List.mem_cons_self _ _)
  have hpre2 : ∀ cr ∈ pre, (Prod.snd cr).hostId ≠ pid ∧ findPlayerIdx pid (Prod.snd cr).players = none := by
    intro cr hcr
    refine ⟨hhost cr ?_, findPlayerIdx_eq_none pid _ (hpre cr hcr)⟩
    rw [hrooms]
    exact List.mem_append_left _ hcr
  have herase := eraseIdx_findPlayerIdx pid room.players i hfind hu
  have hmain : disconnect st pid =
      ({ st with rooms := setKey code { room with players := room.players.eraseIdx i, leaderboard := delKey pid room.leaderboard } st.rooms },
       [⟨Target.room code, Event.playerJoined (room.players.eraseIdx i) room.title⟩]) := by
    unfold disconnect
    conv_lhs => rw [hrooms]
    rw [disconnectLoop_over_pre st pid pre _ hpre2]
    rw [disconnectLoop_player st pid code room post i hhostroom hfind]
  rw [herase] at hmain
  refine ⟨hmain, ?_, lookupKey_delKey_self pid room.leaderboard hnd,
    fun pid2 h2 => lookupKey_delKey_ne pid pid2 room.leaderboard h2, ?_, ?_⟩
  · intro c hc
    rw [hmain]
    exact lookupKey_setKey_ne code c _ st.rooms hc
  · rw [hmain]
  · rw [hmain]

theorem disconnect_nonhost_witness :
    disconnect twoRoomState "p3" =
      ({ twoRoomState with rooms := setKey "CD4Y" { roomB with players := roomB.players.filter (fun p => p.id != "p3"), leaderboard := delKey "p3" roomB.leaderboard } twoRoomState.rooms },
       [⟨Target.room "CD4Y", Event.playerJoined (roomB.players.filter (fun p => p.id != "p3")) roomB.title⟩]) :=
  (disconnect_nonhost_removes_exactly_one twoRoomState "p3" [("AB3X", sampleRoom)] [] "CD4Y" roomB 1
    (by decide) (by decide) (by decide) (by decide) (by decide) (by decide)).1

/-- C10: submitAnswer looks the room code up exactly as sent, with no
    uppercase normalization: when the only matching room is stored under
    the uppercase form of the code, a submitAnswer carrying the lowercase
    code finds no room and silently does nothing (no state change, no
    emission, no crash), even though a joinQuiz with the very same
    lowercase code succeeds, and even when the submitter is the participant
    who just joined that way. -/
theorem submit_code_not_normalized (st : ServerState) (lc pid answer name : String) (room : Room)
    (hmiss : lookupKey lc st.rooms = none)
    (hup : lookupKey (jsToUpperCase lc) st.rooms = some room) :
    submitAnswer st lc pid answer = ⟨st, [], false⟩ ∧
    (joinQuiz st lc name pid).out =
      [⟨Target.sock pid, Event.joinedRoom (jsToUpperCase lc) room.title (room.players ++ [⟨pid, name, 0⟩])⟩,
       ⟨Target.room (jsToUpperCase lc), Event.playerJoined (room.players ++ [⟨pid, name, 0⟩]) room.title⟩] ∧
    submitAnswer (joinQuiz st lc name pid).st lc pid answer = ⟨(joinQuiz st lc name pid).st, [], false⟩ := by
  have hne : lc ≠ jsToUpperCase lc := by
    intro he
    rw [← he, hmiss] at hup
    exact Option.noConfusion hup
  have hjoin := joinQuiz_eq st lc name pid room hup
  refine ⟨submit_no_room st lc pid answer hmiss, ?_, ?_⟩
  · rw [hjoin]
  · have hmiss2 : lookupKey lc (joinQuiz st lc name pid).st.rooms = none := by
      rw [hjoin]
      show lookupKey lc (setKey (jsToUpperCase lc) _ st.rooms) = none
      rw [lookupKey_setKey_ne _ lc _ st.rooms hne]
      exact hmiss
    exact submit_no_room _ lc pid answer hmiss2

theorem submit_code_not_normalized_witness :
    submitAnswer (joinQuiz sampleState "ab3x" "Bob" "p2").st "ab3x" "p2" "Paris" =
      ⟨(joinQuiz sampleState "ab3x" "Bob" "p2").st, [], false⟩ :=
  (submit_code_not_normalized sampleState "ab3x" "p2" "Paris" "Bob" sampleRoom
    (by decide) (by decide)).2.2
